import Mathlib

/-!
Shallow embedding of `src/batch/item.rs` from the fjall repository:
the write-batch item model (`Item`) and the key-only ordering wrapper
(`CompactItem`), together with theorems checking the specification's
claims against this embedding.

Modelling conventions:
* Byte sequences (`PartitionKey`, `UserKey`, `UserValue`, all owned
  byte buffers) are `List (Fin 256)`.
* `Item::new` contains `assert!` calls that abort the process on a
  contract violation; the embedding returns `Option Item`, with `none`
  standing for the abort and `some` for normal return.  The sequence of
  `if`s mirrors the order of the `assert!` statements in the source.
* Rust's derived `PartialEq` on byte buffers and on `Item` is embedded
  as explicit boolean field-wise equality (`bytesEq`, `Item.beq`), and
  `Ord` on byte slices as the lexicographic comparison `bytesCmp`.
-/

namespace Fjall

/-- A byte (`u8`), the element type of all byte-sequence types. -/
abbrev Byte := Fin 256

/-- An owned byte sequence: models `PartitionKey`, `UserKey`, `UserValue`. -/
abbrev Bytes := List Byte

/-- Elementwise byte-sequence equality, as Rust's `PartialEq` for byte
buffers compares element by element. -/
def bytesEq : Bytes → Bytes → Bool
  | [], [] => true
  | a :: as, b :: bs => a == b && bytesEq as bs
  | _, _ => false

/-- Comparison of two bytes (`Ord` for `u8`). -/
def byteCmp (a b : Byte) : Ordering :=
  if a < b then .lt else if a = b then .eq else .gt

/-- Lexicographic comparison of byte sequences (`Ord` for byte slices),
the key order used by `CompactItem` when instantiated at byte keys. -/
def bytesCmp : Bytes → Bytes → Ordering
  | [], [] => .eq
  | [], _ :: _ => .lt
  | _ :: _, [] => .gt
  | a :: as, b :: bs =>
    match byteCmp a b with
    | .eq => bytesCmp as bs
    | o => o

/-- `ValueType` from the `lsm_tree` dependency: the three marker kinds
used by `Item` (a live value, an unconditional delete marker, and a
conditional delete marker), exactly the three variants matched by the
`Debug` implementation in `src/batch/item.rs`. -/
inductive ValueType
  | Value
  | Tombstone
  | WeakTombstone
  deriving DecidableEq

/-- Derived `PartialEq` on `ValueType`: same-variant test. -/
def ValueType.beq : ValueType → ValueType → Bool
  | .Value, .Value => true
  | .Tombstone, .Tombstone => true
  | .WeakTombstone, .WeakTombstone => true
  | _, _ => false

/-- `CompactItem<K, V>`: a mutation record used during merge, ordered by
key only. -/
inductive CompactItem (K V : Type)
  | Value (key : K) (value : V)
  | Tombstone (key : K)
  | WeakTombstone (key : K)

variable {K V : Type}

/-- `CompactItem::key`: the key of any variant. -/
def CompactItem.key : CompactItem K V → K
  | .Value key _ => key
  | .Tombstone key => key
  | .WeakTombstone key => key

/-- `Ord::cmp` for `CompactItem`: `self.key().cmp(other.key())`, where
`c` is the `Ord::cmp` of the key type `K`. -/
def CompactItem.cmp (c : K → K → Ordering) (x y : CompactItem K V) : Ordering :=
  c x.key y.key

/-- `PartialOrd::partial_cmp` for `CompactItem`: `Some(self.cmp(other))`. -/
def CompactItem.pcmp (c : K → K → Ordering) (x y : CompactItem K V) : Option Ordering :=
  some (CompactItem.cmp c x y)

/-- `PartialEq::eq` for `CompactItem`: `self.key() == other.key()`, where
`e` is the `PartialEq::eq` of the key type `K`. -/
def CompactItem.beq (e : K → K → Bool) (x y : CompactItem K V) : Bool :=
  e x.key y.key

/-- `Item`: one mutation against one key in one partition. -/
structure Item where
  partition : Bytes
  key : Bytes
  value : Bytes
  value_type : ValueType
  deriving DecidableEq

/-- Derived `PartialEq` on `Item`: field-wise equality of all four
fields. -/
def Item.beq (a b : Item) : Bool :=
  bytesEq a.partition b.partition && bytesEq a.key b.key &&
    bytesEq a.value b.value && ValueType.beq a.value_type b.value_type

/-- `Item::new`: after conversion into the byte-sequence forms (already
byte sequences here), asserts that the partition and key are non-empty,
that the partition length fits in a `u8`, the key length in a `u16`, and
the value length in a `u32`, then builds the item.  `none` models the
process abort of a failed `assert!`; the `if`s follow the source's
assertion order. -/
def Item.new (partition key value : Bytes) (value_type : ValueType) : Option Item :=
  if partition.isEmpty then none
  else if key.isEmpty then none
  else if 255 < partition.length then none
  else if 65535 < key.length then none
  else if 4294967295 < value.length then none
  else some ⟨partition, key, value, value_type⟩

/-- The marker character chosen by `Item`'s `Debug` implementation for
each `ValueType`. -/
def valueTypeMarker : ValueType → String
  | .Value => "V"
  | .Tombstone => "T"
  | .WeakTombstone => "W"

/-- `Debug` for `Item`: `"{partition}:{key:?}:{marker} => {value:?}"`.
The `Display` rendering of the partition and the `Debug` renderings of
key and value belong to the byte-buffer types of the `lsm_tree`
dependency and are abstracted as the function arguments `pDisp`, `kDbg`
and `vDbg`. -/
def Item.debugFmt (pDisp kDbg vDbg : Bytes → String) (it : Item) : String :=
  pDisp it.partition ++ ":" ++ kDbg it.key ++ ":" ++
    valueTypeMarker it.value_type ++ " => " ++ vDbg it.value

/-! ### Helper lemmas about the byte-sequence order and equality -/

theorem bytesEq_eq_true_iff : ∀ a b : Bytes, bytesEq a b = true ↔ a = b
  | [], [] => by simp [bytesEq]
  | [], _ :: _ => by simp [bytesEq]
  | _ :: _, [] => by simp [bytesEq]
  | a :: as, b :: bs => by
    simp [bytesEq, bytesEq_eq_true_iff as bs]

theorem byteCmp_eq_iff (a b : Byte) : byteCmp a b = .eq ↔ a = b := by
  unfold byteCmp
  rcases lt_trichotomy a b with h | h | h
  · simp [if_pos h, ne_of_lt h]
  · subst h
    simp
  · rw [if_neg (not_lt.mpr h.le), if_neg (ne_of_gt h)]
    simp [ne_of_gt h]

theorem byteCmp_lt_iff (a b : Byte) : byteCmp a b = .lt ↔ a < b := by
  unfold byteCmp
  rcases lt_trichotomy a b with h | h | h
  · simp [if_pos h, h]
  · subst h
    simp
  · rw [if_neg (not_lt.mpr h.le), if_neg (ne_of_gt h)]
    simp [not_lt.mpr h.le]

theorem byteCmp_gt_iff (a b : Byte) : byteCmp a b = .gt ↔ b < a := by
  unfold byteCmp
  rcases lt_trichotomy a b with h | h | h
  · simp [if_pos h, not_lt.mpr h.le]
  · subst h
    simp
  · rw [if_neg (not_lt.mpr h.le), if_neg (ne_of_gt h)]
    simp [h]

theorem bytesCmp_eq_iff : ∀ a b : Bytes, bytesCmp a b = .eq ↔ a = b
  | [], [] => by simp [bytesCmp]
  | [], _ :: _ => by simp [bytesCmp]
  | _ :: _, [] => by simp [bytesCmp]
  | a :: as, b :: bs => by
    unfold bytesCmp
    rcases lt_trichotomy a b with h | h | h
    · have hc : byteCmp a b = .lt := (byteCmp_lt_iff a b).mpr h
      simp [hc, ne_of_lt h]
    · subst h
      have hc : byteCmp a a = .eq := (byteCmp_eq_iff a a).mpr rfl
      simp [hc, bytesCmp_eq_iff as bs]
    · have hc : byteCmp a b = .gt := (byteCmp_gt_iff a b).mpr h
      simp [hc, ne_of_gt h]

theorem bytesCmp_swap : ∀ a b : Bytes, bytesCmp b a = (bytesCmp a b).swap
  | [], [] => by simp [bytesCmp, Ordering.swap]
  | [], _ :: _ => by simp [bytesCmp, Ordering.swap]
  | _ :: _, [] => by simp [bytesCmp, Ordering.swap]
  | a :: as, b :: bs => by
    unfold bytesCmp
    rcases lt_trichotomy a b with h | h | h
    · have h1 : byteCmp a b = .lt := (byteCmp_lt_iff a b).mpr h
      have h2 : byteCmp b a = .gt := (byteCmp_gt_iff b a).mpr h
      simp [h1, h2, Ordering.swap]
    · subst h
      have h1 : byteCmp a a = .eq := (byteCmp_eq_iff a a).mpr rfl
      simp [h1, bytesCmp_swap as bs]
    · have h1 : byteCmp a b = .gt := (byteCmp_gt_iff a b).mpr h
      have h2 : byteCmp b a = .lt := (byteCmp_lt_iff b a).mpr h
      simp [h1, h2, Ordering.swap]

theorem bytesCmp_lt_trans :
    ∀ {a b c : Bytes}, bytesCmp a b = .lt → bytesCmp b c = .lt → bytesCmp a c = .lt
  | [], _ :: _, _ :: _, _, _ => by simp [bytesCmp]
  | [], [], _, hab, _ => by simp [bytesCmp] at hab
  | [], _ :: _, [], _, hbc => by simp [bytesCmp] at hbc
  | _ :: _, [], _, hab, _ => by simp [bytesCmp] at hab
  | _ :: _, _ :: _, [], _, hbc => by simp [bytesCmp] at hbc
  | a :: as, b :: bs, c :: cs, hab, hbc => by
    unfold bytesCmp at hab hbc ⊢
    rcases lt_trichotomy a b with h1 | h1 | h1
    · rcases lt_trichotomy b c with h2 | h2 | h2
      · simp [(byteCmp_lt_iff a c).mpr (h1.trans h2)]
      · subst h2
        simp [(byteCmp_lt_iff a b).mpr h1]
      · rcases lt_trichotomy a c with h3 | h3 | h3
        · simp [(byteCmp_lt_iff a c).mpr h3]
        · exfalso
          rw [(byteCmp_gt_iff b c).mpr h2] at hbc
          simp at hbc
        · exfalso
          rw [(byteCmp_gt_iff b c).mpr h2] at hbc
          simp at hbc
    · subst h1
      rcases lt_trichotomy a c with h2 | h2 | h2
      · simp [(byteCmp_lt_iff a c).mpr h2]
      · subst h2
        rw [(byteCmp_eq_iff a a).mpr rfl] at hab hbc ⊢
        simp only at hab hbc ⊢
        exact bytesCmp_lt_trans hab hbc
      · exfalso
        rw [(byteCmp_gt_iff a c).mpr h2] at hbc
        simp at hbc
    · exfalso
      rw [(byteCmp_gt_iff a b).mpr h1] at hab
      simp at hab

/-- Helper: `Item::new` returns normally with the supplied fields when
every size precondition holds. -/
theorem Item_new_spec (p k v : Bytes) (t : ValueType)
    (hp0 : p ≠ []) (hp : p.length ≤ 255) (hk0 : k ≠ []) (hk : k.length ≤ 65535)
    (hv : v.length ≤ 4294967295) :
    Item.new p k v t = some ⟨p, k, v, t⟩ := by
  have hpe : p.isEmpty = false := by simp [List.isEmpty_iff, hp0]
  have hke : k.isEmpty = false := by simp [List.isEmpty_iff, hk0]
  simp [Item.new, hpe, hke, not_lt.mpr hp, not_lt.mpr hk, not_lt.mpr hv]

/-! ### Claim theorems -/

/-- C1: for every partition with length in [1,255], every key with
length in [1,65535], and every value whose length fits in 32 bits,
`Item::new` succeeds (does not abort) and the constructed item's
partition, key, value and value_type fields equal the supplied inputs
in their byte-sequence forms. -/
theorem Item_new_roundtrip (p k v : Bytes) (t : ValueType)
    (hp1 : 1 ≤ p.length) (hp2 : p.length ≤ 255)
    (hk1 : 1 ≤ k.length) (hk2 : k.length ≤ 65535)
    (hv : v.length ≤ 4294967295) :
    Item.new p k v t = some ⟨p, k, v, t⟩ := by
  refine Item_new_spec p k v t ?_ hp2 ?_ hk2 hv
  · intro h
    rw [h] at hp1
    simp at hp1
  · intro h
    rw [h] at hk1
    simp at hk1

theorem Item_new_roundtrip_witness :
    Item.new [1] [2] [3] .Value = some ⟨[1], [2], [3], .Value⟩ :=
  Item_new_roundtrip [1] [2] [3] .Value (by decide) (by decide) (by decide)
    (by decide) (by decide)

/-- C2: `Item::new` aborts iff a precondition is violated — the
partition is empty or longer than 255 bytes, the key is empty or longer
than 65535 bytes, or the value length does not fit in 32 bits; and when
it does not abort, the result holds the inputs untruncated. -/
theorem Item_new_abort_iff (p k v : Bytes) (t : ValueType) :
    (Item.new p k v t = none ↔
      p = [] ∨ 255 < p.length ∨ k = [] ∨ 65535 < k.length ∨
        4294967295 < v.length) ∧
    (∀ it : Item, Item.new p k v t = some it → it = ⟨p, k, v, t⟩) := by
  unfold Item.new
  split_ifs with h1 h2 h3 h4 h5 <;>
    simp_all [List.isEmpty_iff]

theorem Item_new_abort_iff_witness :
    Item.new (List.replicate 256 0) [7] [] .Value = none ∧
    Item.new [7] (List.replicate 65536 0) [] .Value = none :=
  ⟨(Item_new_abort_iff (List.replicate 256 0) [7] [] .Value).1.mpr
      (Or.inr (Or.inl (by rw [List.length_replicate]; norm_num))),
   (Item_new_abort_iff [7] (List.replicate 65536 0) [] .Value).1.mpr
      (Or.inr (Or.inr (Or.inr (Or.inl
        (by rw [List.length_replicate]; norm_num)))))⟩

/-- C3: `CompactItem`'s `cmp` is determined solely by the key field and
is a strict total order consistent with the lexicographic byte order:
it equals the comparison of the two keys, `eq` exactly on equal keys,
`lt` exactly when the reverse comparison is `gt`, it is transitive, and
for keys a < b < c the three items are strictly ordered regardless of
their marker kinds. -/
theorem CompactItem_cmp_key_order (x y z : CompactItem Bytes Bytes) :
    (CompactItem.cmp bytesCmp x y = bytesCmp x.key y.key) ∧
    (CompactItem.cmp bytesCmp x y = .eq ↔ x.key = y.key) ∧
    (CompactItem.cmp bytesCmp x y = .lt ↔ CompactItem.cmp bytesCmp y x = .gt) ∧
    (CompactItem.cmp bytesCmp x y = .lt → CompactItem.cmp bytesCmp y z = .lt →
      CompactItem.cmp bytesCmp x z = .lt) ∧
    (bytesCmp x.key y.key = .lt → bytesCmp y.key z.key = .lt →
      CompactItem.cmp bytesCmp x y = .lt ∧ CompactItem.cmp bytesCmp y z = .lt ∧
        CompactItem.cmp bytesCmp x z = .lt) := by
  have hswap : ∀ a b : Bytes, bytesCmp a b = .lt ↔ bytesCmp b a = .gt := by
    intro a b
    rw [bytesCmp_swap a b]
    cases h : bytesCmp a b <;> simp [Ordering.swap]
  refine ⟨rfl, bytesCmp_eq_iff _ _, hswap _ _, ?_, ?_⟩
  · exact fun h1 h2 => bytesCmp_lt_trans h1 h2
  · intro h1 h2
    exact ⟨h1, h2, bytesCmp_lt_trans h1 h2⟩

theorem CompactItem_cmp_key_order_witness :
    CompactItem.cmp bytesCmp
        (CompactItem.Tombstone ([0] : Bytes) : CompactItem Bytes Bytes)
        (CompactItem.Value [1] [9]) = .lt ∧
    CompactItem.cmp bytesCmp
        (CompactItem.Value ([1] : Bytes) ([9] : Bytes))
        (CompactItem.WeakTombstone [2]) = .lt ∧
    CompactItem.cmp bytesCmp
        (CompactItem.Tombstone ([0] : Bytes) : CompactItem Bytes Bytes)
        (CompactItem.WeakTombstone [2]) = .lt :=
  (CompactItem_cmp_key_order (CompactItem.Tombstone [0])
      (CompactItem.Value [1] [9]) (CompactItem.WeakTombstone [2])).2.2.2.2
    (by decide) (by decide)

/-- C4: `CompactItem` equality ignores marker kind and payload: a
`Value`, a `Tombstone` and a `WeakTombstone` with the same key are all
equal, and two items are equal exactly when their keys are equal. -/
theorem CompactItem_eq_ignores_marker (k v : Bytes)
    (x y : CompactItem Bytes Bytes) :
    (CompactItem.beq bytesEq (CompactItem.Value k v)
      (CompactItem.Tombstone k) = true) ∧
    (CompactItem.beq bytesEq (CompactItem.Tombstone k : CompactItem Bytes Bytes)
      (CompactItem.WeakTombstone k) = true) ∧
    (CompactItem.beq bytesEq (CompactItem.Value k v)
      (CompactItem.WeakTombstone k) = true) ∧
    (CompactItem.beq bytesEq x y = true ↔ x.key = y.key) := by
  refine ⟨?_, ?_, ?_, ?_⟩ <;>
    simp [CompactItem.beq, CompactItem.key, bytesEq_eq_true_iff]

theorem CompactItem_eq_ignores_marker_witness :
    CompactItem.beq bytesEq (CompactItem.Value ([3] : Bytes) ([4] : Bytes))
      (CompactItem.Tombstone [3]) = true :=
  (CompactItem_eq_ignores_marker [3] [4] (CompactItem.Value [3] [4])
      (CompactItem.Tombstone [3])).1

/-- C5: the value bound enforced by `Item::new` is the 32-bit length
bound, not the narrower 65535-byte bound stated in the field's doc
comment: a value of length 65536 (greater than 65535, at most 2^32−1)
with valid partition and key is accepted. -/
theorem Item_new_value_bound_is_u32 :
    65535 < (List.replicate 65536 (0 : Byte)).length ∧
    (List.replicate 65536 (0 : Byte)).length ≤ 4294967295 ∧
    Item.new [0] [0] (List.replicate 65536 0) .Value =
      some ⟨[0], [0], List.replicate 65536 0, .Value⟩ := by
  have hlen : (List.replicate 65536 (0 : Byte)).length = 65536 :=
    List.length_replicate _ _
  refine ⟨by rw [hlen]; norm_num, by rw [hlen]; norm_num, ?_⟩
  exact Item_new_spec _ _ _ _ (by simp) (by simp) (by simp) (by simp)
    (by rw [hlen]; norm_num)

/-- C6: items in different partitions never compare equal, even with
identical keys, values and value types: unequal partition fields make
`Item` equality false. -/
theorem Item_ne_across_partitions (a b : Item)
    (h : a.partition ≠ b.partition) :
    Item.beq a b = false ∧ a ≠ b := by
  have hbe : bytesEq a.partition b.partition = false := by
    cases hb : bytesEq a.partition b.partition
    · rfl
    · exact absurd ((bytesEq_eq_true_iff _ _).mp hb) h
  refine ⟨?_, ?_⟩
  · simp [Item.beq, hbe]
  · intro he
    exact h (he ▸ rfl)

theorem Item_ne_across_partitions_witness :
    Item.beq ⟨[1], [5], [6], .Value⟩ ⟨[2], [5], [6], .Value⟩ = false :=
  (Item_ne_across_partitions ⟨[1], [5], [6], .Value⟩ ⟨[2], [5], [6], .Value⟩
      (by decide)).1

/-- C7: the `Debug` rendering of an `Item` is
`"<partition>:<key-debug>:<marker> => <value-debug>"` with marker "V"
for `Value`, "T" for `Tombstone` and "W" for `WeakTombstone`; the weak
tombstone marker differs from both the hard tombstone and live value
markers. -/
theorem Item_debug_format (pDisp kDbg vDbg : Bytes → String) (it : Item) :
    (Item.debugFmt pDisp kDbg vDbg it =
      pDisp it.partition ++ ":" ++ kDbg it.key ++ ":" ++
        valueTypeMarker it.value_type ++ " => " ++ vDbg it.value) ∧
    valueTypeMarker .Value = "V" ∧
    valueTypeMarker .Tombstone = "T" ∧
    valueTypeMarker .WeakTombstone = "W" ∧
    (valueTypeMarker .WeakTombstone == valueTypeMarker .Tombstone) = false ∧
    (valueTypeMarker .WeakTombstone == valueTypeMarker .Value) = false :=
  ⟨rfl, rfl, rfl, rfl, by decide, by decide⟩

/-- C8: `Item` construction and `CompactItem` comparison are
deterministic, pure functions of their arguments: on equal inputs,
`Item::new` returns equal results (both succeed with equal items, or
both abort), and `cmp`/`eq` return equal results. -/
theorem item_ops_deterministic (p k v : Bytes) (t : ValueType)
    (p2 k2 v2 : Bytes) (t2 : ValueType)
    (x y x2 y2 : CompactItem Bytes Bytes)
    (hp : p = p2) (hk : k = k2) (hv : v = v2) (ht : t = t2)
    (hx : x = x2) (hy : y = y2) :
    Item.new p k v t = Item.new p2 k2 v2 t2 ∧
    CompactItem.cmp bytesCmp x y = CompactItem.cmp bytesCmp x2 y2 ∧
    CompactItem.beq bytesEq x y = CompactItem.beq bytesEq x2 y2 := by
  subst hp; subst hk; subst hv; subst ht; subst hx; subst hy
  exact ⟨rfl, rfl, rfl⟩

theorem item_ops_deterministic_witness :
    Item.new [9] [9] [] .WeakTombstone = Item.new [9] [9] [] .WeakTombstone ∧
    CompactItem.cmp bytesCmp
        (CompactItem.Tombstone ([1] : Bytes) : CompactItem Bytes Bytes)
        (CompactItem.Value [2] [3]) =
      CompactItem.cmp bytesCmp (CompactItem.Tombstone [1])
        (CompactItem.Value [2] [3]) ∧
    CompactItem.beq bytesEq
        (CompactItem.Tombstone ([1] : Bytes) : CompactItem Bytes Bytes)
        (CompactItem.Value [2] [3]) =
      CompactItem.beq bytesEq (CompactItem.Tombstone [1])
        (CompactItem.Value [2] [3]) :=
  item_ops_deterministic [9] [9] [] .WeakTombstone [9] [9] [] .WeakTombstone
    (CompactItem.Tombstone [1]) (CompactItem.Value [2] [3])
    (CompactItem.Tombstone [1]) (CompactItem.Value [2] [3])
    rfl rfl rfl rfl rfl rfl

/-- C9: `CompactItem`'s comparison instances are mutually consistent and
total: `partial_cmp` always returns `Some` of `cmp`, and equality holds
exactly when `cmp` returns `Equal`. -/
theorem CompactItem_pcmp_consistent (x y : CompactItem Bytes Bytes) :
    (CompactItem.pcmp bytesCmp x y = some (CompactItem.cmp bytesCmp x y)) ∧
    ((CompactItem.pcmp bytesCmp x y).isSome = true) ∧
    (CompactItem.beq bytesEq x y = true ↔
      CompactItem.cmp bytesCmp x y = .eq) := by
  refine ⟨rfl, rfl, ?_⟩
  simp [CompactItem.beq, CompactItem.cmp, bytesEq_eq_true_iff, bytesCmp_eq_iff]

theorem CompactItem_pcmp_consistent_witness :
    CompactItem.cmp bytesCmp
      (CompactItem.WeakTombstone ([8] : Bytes) : CompactItem Bytes Bytes)
      (CompactItem.Tombstone [8]) = .eq :=
  (CompactItem_pcmp_consistent (CompactItem.WeakTombstone [8])
      (CompactItem.Tombstone [8])).2.2.mp (by decide)

/-- C10: `Item::new` performs no validation involving `value_type`:
whether construction succeeds is independent of the supplied
`value_type`, and for any size-valid partition, key and value —
including an empty value with a `Value` marker and a non-empty value
with a tombstone marker — construction succeeds and stores `value_type`
unchanged. -/
theorem Item_new_ignores_value_type (p k v : Bytes) (t t2 : ValueType) :
    ((Item.new p k v t).isSome = (Item.new p k v t2).isSome) ∧
    (p ≠ [] → p.length ≤ 255 → k ≠ [] → k.length ≤ 65535 →
      v.length ≤ 4294967295 → Item.new p k v t = some ⟨p, k, v, t⟩) := by
  constructor
  · unfold Item.new
    split_ifs <;> simp
  · intro h1 h2 h3 h4 h5
    exact Item_new_spec p k v t h1 h2 h3 h4 h5

theorem Item_new_ignores_value_type_witness :
    Item.new [5] [6] [] .Value = some ⟨[5], [6], [], .Value⟩ ∧
    Item.new [5] [6] [7] .Tombstone = some ⟨[5], [6], [7], .Tombstone⟩ :=
  ⟨(Item_new_ignores_value_type [5] [6] [] .Value .Tombstone).2
      (by decide) (by decide) (by decide) (by decide) (by decide),
   (Item_new_ignores_value_type [5] [6] [7] .Tombstone .Value).2
      (by decide) (by decide) (by decide) (by decide) (by decide)⟩

end Fjall
